import Mathlib

/-!
# Verification of the TAA time-series aligner (`src/rai/excel_reader.py`)

Shallow embedding of the date-alignment pipeline of the repository:

* a pandas `DataFrame` whose index is a date column is modelled by `Frame`:
  an optional index name, a list of column names, and a list of rows, each
  row a date key paired with one cell per column.  A cell is `Option Int`:
  `none` models a missing value (pandas `NaN`), `some v` a numeric value.
* dates are modelled as `Nat`, a day number (days since a fixed epoch);
  the code only compares dates and steps them by one day, so any affine
  day encoding is faithful.  A raw (not yet normalized) date key carries a
  time-of-day component and is modelled as a pair `(day, timeOfDay)`.
* `process_date_format` (lines 125-144) truncates each index entry to its
  calendar day and restores the index name.
* `add_holiday_data` (lines 146-171) builds the daily calendar from the
  index minimum to the index maximum, creates an all-missing frame over
  that calendar, copies the non-missing cells of the input over it
  (`new_df.update(df)`, which only transfers non-NA values and raises a
  `ValueError` when the index of `df` carries duplicate labels, since
  pandas cannot reindex from a duplicate axis), and forward-fills the
  missing cells column by column (`fillna(method='ffill')`).  A raised
  exception is modelled by the `none` result; `df.index.min()` on an
  empty index followed by `pd.date_range` also raises, hence `none` on an
  empty frame.
* `process_dataframes` (lines 173-198) maps the two stages over a named
  collection of frames; an exception in one series propagates and aborts
  the whole batch, modelled by a `none` overall result.
* `ask_for_filenames` (lines 7-37) is the console prompt loop; the stream
  of console answers is modelled as a list of strings and the file system
  by an existence predicate `os_path_exists`.  The loop returns only at
  the sentinel `q` with a non-empty accumulated list; an exhausted input
  stream models a session that never returns (`none`).
-/

namespace TAA

/-- A cell of a frame: `none` is pandas `NaN` (missing), `some v` a value. -/
abbrev Cell := Option Int

/-- A pandas `DataFrame` with a day-granularity date index: index name,
column names, and rows of (date key, cells). -/
structure Frame where
  indexName : Option String
  cols : List String
  rows : List (Nat × List Cell)
deriving Repr, DecidableEq

/-- A `DataFrame` whose date index still carries a time-of-day component:
each key is a pair `(day, timeOfDay)`. -/
structure RawFrame where
  indexName : Option String
  cols : List String
  rows : List ((Nat × Nat) × List Cell)
deriving Repr, DecidableEq

/-- The date keys of a frame, in row order (`df.index`). -/
def Frame.dates (df : Frame) : List Nat := df.rows.map Prod.fst

/-- Well-formedness of a frame: every row has one cell per column.  Any
frame arising from a real pandas `DataFrame` satisfies this. -/
def Frame.wf (df : Frame) : Bool :=
  df.rows.all (fun r => r.2.length == df.cols.length)

/-- `process_date_format` (excel_reader.py lines 125-144): truncate every
index entry to its calendar day (`pd.to_datetime(df.index).date`), keeping
the index name and everything else. -/
def process_date_format (df : RawFrame) : Frame :=
  { indexName := df.indexName
    cols := df.cols
    rows := df.rows.map (fun r => (r.1.1, r.2)) }

/-- Re-read an already day-granular frame as a raw frame (its timestamps
are at midnight); this is the index a second pipeline run would see. -/
def Frame.toRaw (df : Frame) : RawFrame :=
  { indexName := df.indexName
    cols := df.cols
    rows := df.rows.map (fun r => ((r.1, 0), r.2)) }

/-- Uniqueness of a list of date keys (`df.index.is_unique`). -/
def noDups (l : List Nat) : Bool := decide l.Nodup

/-- Minimum of a list of date keys (`df.index.min()`); 0 on the empty
list, where pandas raises (callers guard with nonemptiness). -/
def listMin : List Nat → Nat
  | [] => 0
  | [x] => x
  | x :: y :: xs => Nat.min x (listMin (y :: xs))

/-- Maximum of a list of date keys (`df.index.max()`). -/
def listMax : List Nat → Nat
  | [] => 0
  | [x] => x
  | x :: y :: xs => Nat.max x (listMax (y :: xs))

/-- `n` consecutive days starting at `lo`. -/
def dateRangeAux : Nat → Nat → List Nat
  | _, 0 => []
  | lo, n + 1 => lo :: dateRangeAux (lo + 1) n

/-- `pd.date_range(start, end, freq='D')`: every day from `lo` to `hi`
inclusive. -/
def dateRange (lo hi : Nat) : List Nat := dateRangeAux lo (hi + 1 - lo)

/-- Label lookup in a frame's index (row selection by date key). -/
def lookupRow (df : Frame) (d : Nat) : Option (List Cell) :=
  (df.rows.find? (fun r => r.1 == d)).map Prod.snd

/-- One cell of `DataFrame.update`: a non-NA value from `other` overwrites
`base`, an NA value leaves `base` alone. -/
def updateCell (base other : Cell) : Cell :=
  match other with
  | some v => some v
  | none => base

/-- The row of `new_df` at date `d` after `new_df.update(df)`: the empty
all-NA row, overwritten cell-wise by the non-NA cells of `df`'s row at
label `d` when `d` is an original date key. -/
def updatedRow (df : Frame) (d : Nat) : List Cell :=
  match lookupRow df d with
  | some v => List.zipWith updateCell (List.replicate df.cols.length none) v
  | none => List.replicate df.cols.length none

/-- One cell of `fillna(method='ffill')`: a missing cell takes the value
carried from the rows above, a present cell keeps its value. -/
def ffillCell (carried c : Cell) : Cell :=
  match c with
  | some v => some v
  | none => carried

/-- `fillna(method='ffill')` over the rows, top to bottom, carrying the
last non-missing value per column. -/
def ffillRows : List Cell → List (Nat × List Cell) → List (Nat × List Cell)
  | _, [] => []
  | carried, (d, r) :: rest =>
    let r' := List.zipWith ffillCell carried r
    (d, r') :: ffillRows r' rest

/-- `add_holiday_data` (excel_reader.py lines 146-171): expand the frame
to the full daily calendar between its index minimum and maximum, copy the
original non-NA cells onto the calendar (`new_df.update(df)`), and forward
fill.  `none` models a raised exception: on an empty index
(`pd.date_range` on the NaN min/max raises) and on duplicate index labels
(`update` reindexes `df` and raises on a duplicate axis).  The fresh
calendar index of the result carries no name. -/
def add_holiday_data (df : Frame) : Option Frame :=
  if df.rows.isEmpty then none
  else if noDups df.dates then
    let lo := listMin df.dates
    let hi := listMax df.dates
    some { indexName := none
           cols := df.cols
           rows := ffillRows (List.replicate df.cols.length none)
             ((dateRange lo hi).map (fun d => (d, updatedRow df d))) }
  else none

/-- `process_date_format` followed by `add_holiday_data`: the two pipeline
stages applied to one series inside `process_dataframes` (lines 185-196). -/
def process_one (df : RawFrame) : Option Frame :=
  add_holiday_data (process_date_format df)

/-- `process_dataframes` (excel_reader.py lines 173-198): run both stages
on every series of the named collection, in order.  A raised exception in
any series propagates out of the `for` loop and aborts the whole batch
(`none`); on success the result keeps the input's names and order. -/
def process_dataframes : List (String × RawFrame) → Option (List (String × Frame))
  | [] => some []
  | (n, df) :: rest =>
    match process_one df with
    | none => none
    | some f =>
      match process_dataframes rest with
      | none => none
      | some out => some ((n, f) :: out)

/-- Dictionary lookup by series name in a processed collection. -/
def lookupName (l : List (String × Frame)) (n : String) : Option Frame :=
  (l.find? (fun p => p.1 == n)).map Prod.snd

/-- Python `str.lower()` on one character (the filenames at issue are
ASCII; only the A-Z range matters for the `.xlsx`/`.xls`/`q` checks). -/
def asciiLower (c : Char) : Char :=
  if 'A' ≤ c ∧ c ≤ 'Z' then Char.ofNat (c.toNat + 32) else c

/-- A character stripped by Python `str.strip()` (ASCII whitespace). -/
def isPySpace (c : Char) : Bool :=
  c == ' ' || c == '\t' || c == '\n' || c == '\r' || c == '\x0b' || c == '\x0c'

/-- Python `s.lower()`. -/
def pyLower (s : String) : String := ⟨s.data.map asciiLower⟩

/-- Python `s.strip()`: drop leading and trailing whitespace. -/
def pyStrip (s : String) : String :=
  ⟨((s.data.dropWhile isPySpace).reverse.dropWhile isPySpace).reverse⟩

/-- Python `s.endswith(suf)`. -/
def pyEndsWith (s suf : String) : Bool := suf.data.isSuffixOf s.data

/-- `filename.lower().endswith(('.xlsx', '.xls'))` (line 30). -/
def validExt (s : String) : Bool :=
  pyEndsWith (pyLower s) ".xlsx" || pyEndsWith (pyLower s) ".xls"

/-- `ask_for_filenames` (excel_reader.py lines 7-37).  `os_path_exists`
models the file system (`os.path.exists`), the second list the stream of
console answers, the first the accumulated filenames (`filenames`,
initially empty).  Each iteration strips the answer; the sentinel `q`
(case-insensitively) returns the accumulated list unless it is still
empty; an entry failing the existence check or the extension check is
dropped and the loop re-prompts.  `none` models a stream that is
exhausted before the loop returns. -/
def ask_for_filenames (os_path_exists : String → Bool) :
    List String → List String → Option (List String)
  | _, [] => none
  | acc, inp :: rest =>
    let filename := pyStrip inp
    if pyLower filename == "q" then
      if acc.isEmpty then ask_for_filenames os_path_exists acc rest
      else some acc
    else if !(os_path_exists filename) then ask_for_filenames os_path_exists acc rest
    else if !(validExt filename) then ask_for_filenames os_path_exists acc rest
    else ask_for_filenames os_path_exists (acc ++ [filename]) rest

/-! ## Specification-side observation functions

These formalize the spec's "most recent original observation at or before
a date": they are defined from the observed cells of the input frame, not
from the code of `add_holiday_data`, and the correctness theorems compare
the two. -/

/-- The observed cell of column `j` at date `d`: the cell of the (unique)
row labelled `d`, or missing when the frame has no row at `d`. -/
def obsAt (df : Frame) (j d : Nat) : Cell :=
  match lookupRow df d with
  | some v => v.getD j none
  | none => none

/-- The most recent non-missing observation of column `j` at a date `≤ d`,
or `none` when every date up to `d` has a missing cell. -/
def lastObsLe (df : Frame) (j : Nat) : Nat → Cell
  | 0 => obsAt df j 0
  | d + 1 =>
    match obsAt df j (d + 1) with
    | some v => some v
    | none => lastObsLe df j d

/-- The most recent non-missing observation of column `j` at a date `< d`. -/
def lastObsLt (df : Frame) (j : Nat) : Nat → Cell
  | 0 => none
  | d + 1 => lastObsLe df j d

/-! ## Concrete example data

Day numbers encode calendar dates as days since 2023-12-31, so
`2 = 2024-01-02`, `3 = 2024-01-03`, `4 = 2024-01-04`, `5 = 2024-01-05`. -/

/-- The spec's example input series `{"2024-01-02": 10, "2024-01-05": 12}`
as a one-column frame with day-granularity keys. -/
def exampleSeries : Frame :=
  { indexName := some "Date"
    cols := ["value"]
    rows := [(2, [some 10]), (5, [some 12])] }

/-- The aligned table for `exampleSeries`: 4 rows, Jan 3 and Jan 4 filled
with the Jan 2 value. -/
def exampleAligned : Frame :=
  { indexName := none
    cols := ["value"]
    rows := [(2, [some 10]), (3, [some 10]), (4, [some 10]), (5, [some 12])] }

/-- `exampleSeries` before date normalization: the same observations with
time-of-day components on the keys. -/
def exampleRaw : RawFrame :=
  { indexName := some "Date"
    cols := ["value"]
    rows := [((2, 7), [some 10]), ((5, 0), [some 12])] }

/-- A raw series whose two timestamps fall on the same calendar day, so
day-truncation produces duplicate date keys. -/
def dupSeries : RawFrame :=
  { indexName := some "Date"
    cols := ["value"]
    rows := [((2, 0), [some 1]), ((2, 5), [some 2])] }

/-- A two-column frame with explicitly missing cells: column `b` has no
observation before day 5, and column `a`'s cell on day 5 is missing. -/
def exampleTwoCol : Frame :=
  { indexName := some "Date"
    cols := ["a", "b"]
    rows := [(2, [some 1, none]), (5, [none, some 7])] }

/-- The aligned table for `exampleTwoCol`. -/
def exampleTwoColOut : Frame :=
  { indexName := none
    cols := ["a", "b"]
    rows := [(2, [some 1, none]), (3, [some 1, none]),
             (4, [some 1, none]), (5, [some 1, some 7])] }

/-- A tiny file system for the prompt-loop examples: exactly two files
exist, one spreadsheet and one text file. -/
def exampleFileSystem : String → Bool :=
  fun s => s == "data.xlsx" || s == "notes.txt"

/-! ## Basic lemmas -/

theorem noDups_iff {l : List Nat} : noDups l = true ↔ l.Nodup := by
  simp [noDups]

theorem listMin_le {l : List Nat} {x : Nat} (h : x ∈ l) : listMin l ≤ x := by
  induction l with
  | nil => cases h
  | cons a t ih =>
    cases t with
    | nil =>
      rcases List.mem_singleton.mp h with rfl
      exact Nat.le_refl _
    | cons b u =>
      rw [listMin]
      rcases List.mem_cons.mp h with rfl | h2
      · exact Nat.min_le_left _ _
      · exact Nat.le_trans (Nat.min_le_right _ _) (ih h2)

theorem le_listMax {l : List Nat} {x : Nat} (h : x ∈ l) : x ≤ listMax l := by
  induction l with
  | nil => cases h
  | cons a t ih =>
    cases t with
    | nil =>
      rcases List.mem_singleton.mp h with rfl
      exact Nat.le_refl _
    | cons b u =>
      rw [listMax]
      rcases List.mem_cons.mp h with rfl | h2
      · exact Nat.le_max_left _ _
      · exact Nat.le_trans (ih h2) (Nat.le_max_right _ _)

theorem listMax_mem {l : List Nat} (h : l ≠ []) : listMax l ∈ l := by
  induction l with
  | nil => exact absurd rfl h
  | cons a t ih =>
    cases t with
    | nil => simp [listMax]
    | cons b u =>
      rw [listMax]
      rcases Nat.le_total a (listMax (b :: u)) with hle | hle
      · have hm : Nat.max a (listMax (b :: u)) = listMax (b :: u) := Nat.max_eq_right hle
        rw [hm]; exact List.mem_cons_of_mem _ (ih (by simp))
      · have hm : Nat.max a (listMax (b :: u)) = a := Nat.max_eq_left hle
        rw [hm]; exact List.mem_cons_self _ _

theorem listMin_le_listMax {l : List Nat} (h : l ≠ []) : listMin l ≤ listMax l :=
  listMin_le (listMax_mem h)

theorem length_dateRangeAux (lo n : Nat) : (dateRangeAux lo n).length = n := by
  induction n generalizing lo with
  | zero => rfl
  | succ n ih => rw [dateRangeAux]; simp [ih]

theorem mem_dateRangeAux {d : Nat} : ∀ {lo n : Nat}, d ∈ dateRangeAux lo n ↔ lo ≤ d ∧ d < lo + n := by
  intro lo n
  induction n generalizing lo with
  | zero => simp [dateRangeAux]
  | succ n ih =>
    rw [dateRangeAux]
    simp only [List.mem_cons, ih]
    omega

theorem chain_dateRangeAux (lo n : Nat) :
    List.Chain' (fun a b => b = a + 1) (dateRangeAux lo n) := by
  induction n generalizing lo with
  | zero => exact List.chain'_nil
  | succ n ih =>
    rw [dateRangeAux]
    refine List.chain'_cons'.mpr ⟨?_, ih (lo + 1)⟩
    intro y hy
    cases n with
    | zero => simp [dateRangeAux] at hy
    | succ m =>
      rw [dateRangeAux] at hy
      simp at hy
      omega

theorem nodup_dateRangeAux (lo n : Nat) : (dateRangeAux lo n).Nodup := by
  induction n generalizing lo with
  | zero => exact List.nodup_nil
  | succ n ih =>
    rw [dateRangeAux]
    refine List.nodup_cons.mpr ⟨?_, ih (lo + 1)⟩
    intro hmem
    have := mem_dateRangeAux.mp hmem
    omega

theorem listMin_dateRangeAux (lo n : Nat) : listMin (dateRangeAux lo (n + 1)) = lo := by
  induction n generalizing lo with
  | zero => rfl
  | succ n ih =>
    have h1 : dateRangeAux lo (n + 2) = lo :: dateRangeAux (lo + 1) (n + 1) := rfl
    have h2 : dateRangeAux (lo + 1) (n + 1) = (lo + 1) :: dateRangeAux (lo + 2) n := rfl
    rw [h1, h2, listMin, ← h2, ih (lo + 1)]
    exact Nat.min_eq_left (Nat.le_succ lo)

theorem listMax_dateRangeAux (lo n : Nat) : listMax (dateRangeAux lo (n + 1)) = lo + n := by
  induction n generalizing lo with
  | zero => rfl
  | succ n ih =>
    have h1 : dateRangeAux lo (n + 2) = lo :: dateRangeAux (lo + 1) (n + 1) := rfl
    have h2 : dateRangeAux (lo + 1) (n + 1) = (lo + 1) :: dateRangeAux (lo + 2) n := rfl
    rw [h1, h2, listMax, ← h2, ih (lo + 1)]
    have hm : Nat.max lo (lo + 1 + n) = lo + 1 + n := Nat.max_eq_right (by omega)
    rw [hm]; omega

theorem mem_dates {df : Frame} {d : Nat} :
    d ∈ df.dates ↔ ∃ v, (d, v) ∈ df.rows := by
  unfold Frame.dates
  constructor
  · intro h
    rcases List.mem_map.mp h with ⟨⟨a, v⟩, hm, hfst⟩
    exact ⟨v, by simpa [← hfst] using hm⟩
  · rintro ⟨v, hv⟩
    exact List.mem_map.mpr ⟨(d, v), hv, rfl⟩

theorem lookupRow_eq_none {df : Frame} {d : Nat} (h : d ∉ df.dates) :
    lookupRow df d = none := by
  unfold lookupRow
  rw [List.find?_eq_none.mpr]
  · rfl
  · intro r hr hbeq
    exact h (mem_dates.mpr ⟨r.2, by
      have hd : r.1 = d := eq_of_beq hbeq
      rw [← hd]; exact hr⟩)

theorem lookupRow_mem {df : Frame} {d : Nat} {v : List Cell}
    (h : lookupRow df d = some v) : (d, v) ∈ df.rows := by
  unfold lookupRow at h
  rcases Option.map_eq_some'.mp h with ⟨r, hfind, hsnd⟩
  have h1 : r.1 = d := by simpa using List.find?_some hfind
  have h2 : r ∈ df.rows := List.mem_of_find?_eq_some hfind
  have h3 : (d, v) = r := by rw [← h1, ← hsnd]
  rw [h3]; exact h2

theorem lookupRow_isSome {df : Frame} {d : Nat} (h : d ∈ df.dates) :
    ∃ v, lookupRow df d = some v := by
  rcases mem_dates.mp h with ⟨v, hv⟩
  have : (df.rows.find? (fun r => r.1 == d)).isSome = true :=
    List.find?_isSome.mpr ⟨(d, v), hv, by simp⟩
  rcases Option.isSome_iff_exists.mp this with ⟨r, hr⟩
  exact ⟨r.2, by unfold lookupRow; rw [hr]; rfl⟩

theorem wf_row_length {df : Frame} (hwf : df.wf = true) {d : Nat}
    {v : List Cell} (h : (d, v) ∈ df.rows) : v.length = df.cols.length := by
  have hb := List.all_eq_true.mp hwf _ h
  exact eq_of_beq hb

theorem updatedRow_length {df : Frame} (hwf : df.wf = true) (d : Nat) :
    (updatedRow df d).length = df.cols.length := by
  unfold updatedRow
  cases h : lookupRow df d with
  | none => simp
  | some v =>
    have hv : v.length = df.cols.length := wf_row_length hwf (lookupRow_mem h)
    simp [List.length_zipWith, hv]

theorem updatedRow_getElem {df : Frame} (hwf : df.wf = true) {j : Nat}
    (hj : j < df.cols.length) (d : Nat) :
    (updatedRow df d)[j]? = some (obsAt df j d) := by
  cases h : lookupRow df d with
  | none =>
    simp only [updatedRow, obsAt, h]
    simp [List.getElem?_replicate, hj]
  | some v =>
    have hv : v.length = df.cols.length := wf_row_length hwf (lookupRow_mem h)
    have hjv : j < v.length := hv ▸ hj
    simp only [updatedRow, obsAt, h]
    rw [List.getElem?_zipWith]
    rw [List.getElem?_replicate, if_pos hj]
    rw [List.getElem?_eq_getElem hjv]
    rw [List.getD_eq_getElem?_getD, List.getElem?_eq_getElem hjv]
    cases v[j] <;> rfl

theorem ffillRows_map_fst : ∀ (c : List Cell) (l : List (Nat × List Cell)),
    (ffillRows c l).map Prod.fst = l.map Prod.fst := by
  intro c l
  induction l generalizing c with
  | nil => rfl
  | cons p rest ih =>
    cases p
    rw [ffillRows]
    simp only [List.map_cons]
    rw [ih]

theorem ffillRows_row_length {k : Nat} : ∀ (c : List Cell) (l : List (Nat × List Cell)),
    c.length = k → (∀ p ∈ l, (p : Nat × List Cell).2.length = k) →
    ∀ p ∈ ffillRows c l, (p : Nat × List Cell).2.length = k := by
  intro c l
  induction l generalizing c with
  | nil => intro _ _ p hp; cases hp
  | cons q rest ih =>
    rcases q with ⟨d, r⟩
    intro hc hl p hp
    rw [ffillRows] at hp
    have hr' : (List.zipWith ffillCell c r).length = k := by
      rw [List.length_zipWith, hc, hl (d, r) (List.mem_cons_self _ _)]
      exact Nat.min_self k
    rcases List.mem_cons.mp hp with rfl | htail
    · exact hr'
    · exact ih _ hr' (fun q hq => hl q (List.mem_cons_of_mem _ hq)) p htail

theorem lastObsLe_step (df : Frame) (j d : Nat) :
    lastObsLe df j d = ffillCell (lastObsLt df j d) (obsAt df j d) := by
  cases d with
  | zero =>
    rw [lastObsLe, lastObsLt]
    cases obsAt df j 0 <;> rfl
  | succ d =>
    rw [lastObsLe, lastObsLt]
    cases obsAt df j (d + 1) <;> rfl

theorem obsAt_eq_none_of_not_mem {df : Frame} {j d : Nat} (h : d ∉ df.dates) :
    obsAt df j d = none := by
  unfold obsAt
  rw [lookupRow_eq_none h]

theorem obsAt_eq_none_lt_min {df : Frame} {j d : Nat} (h : d < listMin df.dates) :
    obsAt df j d = none := by
  refine obsAt_eq_none_of_not_mem (fun hmem => ?_)
  exact absurd (listMin_le hmem) (by omega)

theorem obsAt_eq_none_gt_max {df : Frame} {j d : Nat} (h : listMax df.dates < d) :
    obsAt df j d = none := by
  refine obsAt_eq_none_of_not_mem (fun hmem => ?_)
  exact absurd (le_listMax hmem) (by omega)

theorem lastObsLe_eq_none {df : Frame} {j : Nat} :
    ∀ {d : Nat}, (∀ e, e ≤ d → obsAt df j e = none) → lastObsLe df j d = none := by
  intro d
  induction d with
  | zero => intro h; rw [lastObsLe, h 0 (Nat.le_refl 0)]
  | succ d ih =>
    intro h
    rw [lastObsLe, h (d + 1) (Nat.le_refl _)]
    exact ih (fun e he => h e (Nat.le_succ_of_le he))

theorem lastObsLt_min_eq_none (df : Frame) (j : Nat) :
    lastObsLt df j (listMin df.dates) = none := by
  cases hm : listMin df.dates with
  | zero => rw [lastObsLt]
  | succ m =>
    rw [lastObsLt]
    exact lastObsLe_eq_none (fun e he => obsAt_eq_none_lt_min (by omega))

/-! ## Characterization of `add_holiday_data` -/

/-- The forward-fill invariant: starting from a carried row holding, per
column, the last non-missing observation strictly before `lo`, filling the
updated calendar rows of `n` consecutive days gives, at every produced
date `d` and column `j`, the last non-missing observation at or before
`d`. -/
theorem ffill_cells (df : Frame) (hwf : df.wf = true) :
    ∀ (n lo : Nat) (carried : List Cell),
      (∀ j, j < df.cols.length → carried[j]? = some (lastObsLt df j lo)) →
      ∀ d r, (d, r) ∈ ffillRows carried
          ((dateRangeAux lo n).map (fun e => (e, updatedRow df e))) →
        ∀ j, j < df.cols.length → r[j]? = some (lastObsLe df j d) := by
  intro n
  induction n with
  | zero => intro lo carried _ d r hmem; rw [dateRangeAux] at hmem; cases hmem
  | succ n ih =>
    intro lo carried hcarried d r hmem
    rw [dateRangeAux] at hmem
    rw [List.map_cons, ffillRows] at hmem
    have hhead : ∀ j, j < df.cols.length →
        (List.zipWith ffillCell carried (updatedRow df lo))[j]? =
          some (lastObsLe df j lo) := by
      intro j hj
      rw [List.getElem?_zipWith, hcarried j hj, updatedRow_getElem hwf hj lo]
      rw [lastObsLe_step df j lo]
    rcases List.mem_cons.mp hmem with heq | htail
    · have hd : d = lo := congrArg Prod.fst heq
      have hr : r = List.zipWith ffillCell carried (updatedRow df lo) :=
        congrArg Prod.snd heq
      intro j hj
      rw [hr, hd]
      exact hhead j hj
    · refine ih (lo + 1) (List.zipWith ffillCell carried (updatedRow df lo))
        (fun j hj => ?_) d r htail
      rw [hhead j hj, lastObsLt]

theorem add_holiday_data_eq (df : Frame) (h1 : df.rows ≠ [])
    (h2 : noDups df.dates = true) :
    add_holiday_data df = some
      { indexName := none
        cols := df.cols
        rows := ffillRows (List.replicate df.cols.length none)
          ((dateRange (listMin df.dates) (listMax df.dates)).map
            (fun e => (e, updatedRow df e))) } := by
  unfold add_holiday_data
  rw [if_neg (by simp [List.isEmpty_iff, h1]), if_pos h2]

theorem add_holiday_data_eq_some {df out : Frame}
    (h : add_holiday_data df = some out) :
    df.rows ≠ [] ∧ noDups df.dates = true ∧ out =
      { indexName := none
        cols := df.cols
        rows := ffillRows (List.replicate df.cols.length none)
          ((dateRange (listMin df.dates) (listMax df.dates)).map
            (fun e => (e, updatedRow df e))) } := by
  unfold add_holiday_data at h
  by_cases he : df.rows.isEmpty
  · rw [if_pos he] at h; cases h
  · rw [if_neg he] at h
    by_cases hnd : noDups df.dates
    · rw [if_pos hnd] at h
      refine ⟨by simpa [List.isEmpty_iff] using he, hnd, ?_⟩
      exact (Option.some_inj.mp h).symm
    · rw [if_neg hnd] at h; cases h

theorem add_holiday_data_dates {df out : Frame}
    (h : add_holiday_data df = some out) :
    out.dates = dateRange (listMin df.dates) (listMax df.dates) := by
  rcases add_holiday_data_eq_some h with ⟨_, _, rfl⟩
  show (ffillRows _ _).map Prod.fst = _
  rw [ffillRows_map_fst, List.map_map]
  have hcomp : (Prod.fst ∘ fun e : Nat => (e, updatedRow df e)) = fun e : Nat => e := rfl
  rw [hcomp]
  exact List.map_id' _

theorem add_holiday_data_cells {df out : Frame} (hwf : df.wf = true)
    (h : add_holiday_data df = some out) :
    ∀ d r, (d, r) ∈ out.rows → ∀ j, j < df.cols.length →
      r[j]? = some (lastObsLe df j d) := by
  rcases add_holiday_data_eq_some h with ⟨_, _, rfl⟩
  intro d r hmem j hj
  refine ffill_cells df hwf (listMax df.dates + 1 - listMin df.dates)
    (listMin df.dates) _ (fun i hi => ?_) d r hmem j hj
  rw [List.getElem?_replicate, if_pos hi, lastObsLt_min_eq_none]

theorem add_holiday_data_row_length {df out : Frame} (hwf : df.wf = true)
    (h : add_holiday_data df = some out) :
    ∀ p ∈ out.rows, (p : Nat × List Cell).2.length = df.cols.length := by
  rcases add_holiday_data_eq_some h with ⟨_, _, rfl⟩
  refine ffillRows_row_length _ _ (List.length_replicate _ _) ?_
  intro p hp
  rcases List.mem_map.mp hp with ⟨e, _, rfl⟩
  exact updatedRow_length hwf e

theorem add_holiday_data_wf {df out : Frame} (hwf : df.wf = true)
    (h : add_holiday_data df = some out) : out.wf = true := by
  have hc : out.cols = df.cols := by
    rcases add_holiday_data_eq_some h with ⟨_, _, rfl⟩; rfl
  refine List.all_eq_true.mpr (fun p hp => ?_)
  rw [hc]
  exact beq_iff_eq.mpr (add_holiday_data_row_length hwf h p hp)

/-! ## Idempotence machinery -/

theorem Frame.eq_of_fields {a b : Frame} (h1 : a.indexName = b.indexName)
    (h2 : a.cols = b.cols) (h3 : a.rows = b.rows) : a = b := by
  cases a; cases b; simp_all

theorem cells_ext (k : Nat) {r1 r2 : List Cell} (h1 : r1.length = k)
    (h2 : r2.length = k) (h : ∀ j, j < k → r1[j]? = r2[j]?) : r1 = r2 := by
  refine List.ext_getElem? (fun j => ?_)
  by_cases hj : j < k
  · exact h j hj
  · rw [List.getElem?_eq_none (by omega : r1.length ≤ j),
        List.getElem?_eq_none (by omega : r2.length ≤ j)]

theorem rows_ext (k : Nat) : ∀ (l1 l2 : List (Nat × List Cell)),
    l1.map Prod.fst = l2.map Prod.fst →
    (∀ p ∈ l1, (p : Nat × List Cell).2.length = k) →
    (∀ p ∈ l2, (p : Nat × List Cell).2.length = k) →
    (∀ d r1 r2, (d, r1) ∈ l1 → (d, r2) ∈ l2 → ∀ j, j < k → r1[j]? = r2[j]?) →
    l1 = l2 := by
  intro l1
  induction l1 with
  | nil =>
    intro l2 hfst _ _ _
    cases l2 with
    | nil => rfl
    | cons q t => simp at hfst
  | cons p t ih =>
    intro l2 hfst hl1 hl2 hcells
    cases l2 with
    | nil => simp at hfst
    | cons q t2 =>
      rcases p with ⟨d1, r1⟩
      rcases q with ⟨d2, r2⟩
      simp only [List.map_cons, List.cons.injEq] at hfst
      obtain ⟨hd, htl⟩ := hfst
      have hr : r1 = r2 := by
        refine cells_ext k (hl1 _ (List.mem_cons_self _ _))
          (hl2 _ (List.mem_cons_self _ _)) ?_
        intro j hj
        refine hcells d1 r1 r2 (List.mem_cons_self _ _) ?_ j hj
        rw [hd]
        exact List.mem_cons_self _ _
      have hrec : t = t2 := ih t2 htl
        (fun p hp => hl1 p (List.mem_cons_of_mem _ hp))
        (fun p hp => hl2 p (List.mem_cons_of_mem _ hp))
        (fun d a b ha hb j hj =>
          hcells d a b (List.mem_cons_of_mem _ ha) (List.mem_cons_of_mem _ hb) j hj)
      rw [hd, hr, hrec]

/-- Truncating the dates of an already day-granular frame is the identity:
the second pipeline run sees the same table. -/
theorem process_roundtrip (g : Frame) : process_date_format g.toRaw = g := by
  refine Frame.eq_of_fields rfl rfl ?_
  show (g.rows.map (fun r => ((r.1, 0), r.2))).map (fun r => (r.1.1, r.2)) = g.rows
  rw [List.map_map]
  have hcomp : ((fun r : (Nat × Nat) × List Cell => (r.1.1, r.2)) ∘
      fun r : Nat × List Cell => ((r.1, 0), r.2)) = fun r : Nat × List Cell => r := rfl
  rw [hcomp]
  exact List.map_id' _

theorem lastObsLe_succ_none {df : Frame} {j d : Nat}
    (h : lastObsLe df j (d + 1) = none) : lastObsLe df j d = none := by
  rw [lastObsLe] at h
  cases ho : obsAt df j (d + 1) with
  | some v => rw [ho] at h; cases h
  | none => rw [ho] at h; exact h

/-- If a frame `out` holds, at every calendar date between `lo` and `hi`,
exactly the running last observation of `g` (and nothing outside), then
the last-observation functions of `out` and of `g` agree everywhere. -/
theorem lastObsLe_congr (g out : Frame) (j lo hi : Nat)
    (h1 : ∀ d, d < lo → obsAt g j d = none)
    (h2 : ∀ d, hi < d → obsAt g j d = none)
    (hobs : ∀ d, obsAt out j d = if lo ≤ d ∧ d ≤ hi then lastObsLe g j d else none) :
    ∀ d, lastObsLe out j d = lastObsLe g j d := by
  intro d
  induction d with
  | zero =>
    rw [lastObsLe, lastObsLe, hobs 0]
    by_cases h0 : lo ≤ 0 ∧ 0 ≤ hi
    · rw [if_pos h0, lastObsLe]
    · rw [if_neg h0, h1 0 (by omega)]
  | succ d ih =>
    by_cases hr : lo ≤ d + 1 ∧ d + 1 ≤ hi
    · have hv := hobs (d + 1)
      rw [if_pos hr] at hv
      cases hg1 : lastObsLe g j (d + 1) with
      | some v =>
        rw [lastObsLe, hv, hg1]
      | none =>
        rw [lastObsLe, hv, hg1, ih]
        exact lastObsLe_succ_none hg1
    · have hv := hobs (d + 1)
      rw [if_neg hr] at hv
      have hgnone : obsAt g j (d + 1) = none := by
        rcases Nat.lt_or_ge (d + 1) lo with hlt | hge
        · exact h1 _ hlt
        · exact h2 _ (by omega)
      rw [lastObsLe, lastObsLe, hv, hgnone]
      exact ih

/-- Applying the gap filler to its own output changes nothing. -/
theorem add_idem {g out : Frame} (hwf : g.wf = true)
    (hg : add_holiday_data g = some out) :
    add_holiday_data out = some out := by
  obtain ⟨hne, hnd, hout⟩ := add_holiday_data_eq_some hg
  have hdates : out.dates = dateRange (listMin g.dates) (listMax g.dates) :=
    add_holiday_data_dates hg
  have hdne : g.dates ≠ [] := by
    unfold Frame.dates
    intro hcon
    exact hne (List.map_eq_nil_iff.mp hcon)
  have hlohi : listMin g.dates ≤ listMax g.dates := listMin_le_listMax hdne
  have hlen : listMax g.dates + 1 - listMin g.dates
      = (listMax g.dates - listMin g.dates) + 1 := by omega
  have hcols : out.cols = g.cols := by rw [hout]
  have hwfo : out.wf = true := add_holiday_data_wf hwf hg
  have hone : out.rows ≠ [] := by
    intro hcon
    have hd0 : out.dates = [] := by rw [Frame.dates, hcon]; rfl
    rw [hdates, dateRange, hlen, dateRangeAux] at hd0
    cases hd0
  have hndo : noDups out.dates = true := by
    rw [noDups_iff, hdates, dateRange, hlen]
    exact nodup_dateRangeAux _ _
  have hmin : listMin out.dates = listMin g.dates := by
    rw [hdates, dateRange, hlen, listMin_dateRangeAux]
  have hmax : listMax out.dates = listMax g.dates := by
    rw [hdates, dateRange, hlen, listMax_dateRangeAux]
    omega
  have hobs : ∀ j, j < g.cols.length → ∀ d, obsAt out j d =
      if listMin g.dates ≤ d ∧ d ≤ listMax g.dates then lastObsLe g j d
      else none := by
    intro j hj d
    by_cases hr : listMin g.dates ≤ d ∧ d ≤ listMax g.dates
    · rw [if_pos hr]
      have hdmem : d ∈ out.dates := by
        rw [hdates, dateRange, hlen]
        exact mem_dateRangeAux.mpr ⟨hr.1, by omega⟩
      rcases lookupRow_isSome hdmem with ⟨v, hv⟩
      have hvc := add_holiday_data_cells hwf hg d v (lookupRow_mem hv) j hj
      have hov : obsAt out j d = v.getD j none := by simp [obsAt, hv]
      rw [hov, List.getD_eq_getElem?_getD, hvc]
      rfl
    · rw [if_neg hr]
      refine obsAt_eq_none_of_not_mem ?_
      rw [hdates, dateRange, hlen]
      intro hmem
      have := mem_dateRangeAux.mp hmem
      omega
  have hbridge : ∀ j, j < g.cols.length →
      ∀ d, lastObsLe out j d = lastObsLe g j d := fun j hj =>
    lastObsLe_congr g out j (listMin g.dates) (listMax g.dates)
      (fun d hd => obsAt_eq_none_lt_min hd)
      (fun d hd => obsAt_eq_none_gt_max hd)
      (hobs j hj)
  have h2 := add_holiday_data_eq out hone hndo
  rw [h2]
  refine congrArg some (Frame.eq_of_fields ?_ ?_ ?_)
  · rw [hout]
  · rfl
  · show ffillRows (List.replicate out.cols.length none)
        ((dateRange (listMin out.dates) (listMax out.dates)).map
          (fun e => (e, updatedRow out e))) = out.rows
    refine rows_ext g.cols.length _ _ ?_ ?_ ?_ ?_
    · rw [ffillRows_map_fst, List.map_map]
      have hcomp : (Prod.fst ∘ fun e : Nat => (e, updatedRow out e))
          = fun e : Nat => e := rfl
      rw [hcomp, List.map_id', hmin, hmax, ← hdates]
      rfl
    · intro p hp
      rw [← hcols]
      exact add_holiday_data_row_length hwfo h2 p hp
    · exact add_holiday_data_row_length hwf hg
    · intro d r1 r2 h1mem h2mem j hj
      have hc1 := add_holiday_data_cells hwfo h2 d r1 h1mem j (by rw [hcols]; exact hj)
      have hc2 := add_holiday_data_cells hwf hg d r2 h2mem j hj
      rw [hc1, hc2, hbridge j hj]

/-! ## Driver and prompt-loop lemmas -/

theorem lookupName_cons (n : String) (f : Frame) (t : List (String × Frame))
    (a : String) :
    lookupName ((n, f) :: t) a = if n == a then some f else lookupName t a := by
  unfold lookupName
  by_cases h : (n == a) = true
  · rw [if_pos h, List.find?_cons_of_pos _ (by simpa using h)]
    rfl
  · rw [if_neg h, List.find?_cons_of_neg _ (by simpa using h)]

/-- Invariant of the prompt loop: starting from an accumulator of already
validated filenames, any returned list is non-empty and contains only
filenames that passed both the existence and the extension check. -/
theorem ask_for_filenames_invariant (os_ex : String → Bool) :
    ∀ (inputs acc l : List String),
      (∀ f ∈ acc, os_ex f = true ∧ validExt f = true) →
      ask_for_filenames os_ex acc inputs = some l →
      l ≠ [] ∧ ∀ f ∈ l, os_ex f = true ∧ validExt f = true := by
  intro inputs
  induction inputs with
  | nil => intro acc l _ h; cases h
  | cons inp rest ih =>
    intro acc l hacc h
    simp only [ask_for_filenames] at h
    by_cases hq : (pyLower (pyStrip inp) == "q") = true
    · rw [if_pos hq] at h
      by_cases hemp : (acc.isEmpty) = true
      · rw [if_pos hemp] at h
        exact ih acc l hacc h
      · rw [if_neg hemp] at h
        obtain rfl : acc = l := Option.some_inj.mp h
        refine ⟨?_, hacc⟩
        intro hnil
        rw [hnil] at hemp
        exact hemp rfl
    · rw [if_neg hq] at h
      by_cases hex : (!(os_ex (pyStrip inp))) = true
      · rw [if_pos hex] at h
        exact ih acc l hacc h
      · rw [if_neg hex] at h
        by_cases hval : (!(validExt (pyStrip inp))) = true
        · rw [if_pos hval] at h
          exact ih acc l hacc h
        · rw [if_neg hval] at h
          refine ih (acc ++ [pyStrip inp]) l ?_ h
          intro f hf
          rcases List.mem_append.mp hf with hfa | hfs
          · exact hacc f hfa
          · rcases List.mem_singleton.mp hfs with rfl
            exact ⟨by simpa using hex, by simpa using hval⟩

/-! ## Claim theorems -/

/-- Claim C1, forward-fill correctness of the gap filler: for every
non-empty table with day-granularity date keys (well-formed, and with
distinct keys, both implied by the run succeeding), every column and every
date in the output of `add_holiday_data` holds exactly the most recent
non-missing original observation of that column at or before that date
(`lastObsLe`), and in particular the cell is absent (`none`) whenever no
observation at or before that date exists — all dates before a column's
first real observation stay absent. -/
theorem C1_forward_fill (df out : Frame) (hwf : df.wf = true)
    (h : add_holiday_data df = some out) :
    (∀ d r, (d, r) ∈ out.rows → ∀ j, j < df.cols.length →
      r[j]? = some (lastObsLe df j d)) ∧
    (∀ d r, (d, r) ∈ out.rows → ∀ j, j < df.cols.length →
      (∀ e, e ≤ d → obsAt df j e = none) → r[j]? = some none) := by
  refine ⟨add_holiday_data_cells hwf h, ?_⟩
  intro d r hm j hj habs
  rw [add_holiday_data_cells hwf h d r hm j hj, lastObsLe_eq_none habs]

/-- Witness for C1 on `exampleTwoCol`: on day 3 (synthesized), column `a`
(index 0) carries the day-2 value and column `b` (index 1), which has no
observation yet, is absent. -/
theorem C1_forward_fill_witness :
    ([some 1, none] : List Cell)[0]? = some (lastObsLe exampleTwoCol 0 3) ∧
    ([some 1, none] : List Cell)[1]? = some none := by
  have h := C1_forward_fill exampleTwoCol exampleTwoColOut (by decide) (by decide)
  exact ⟨h.1 3 [some 1, none] (by decide) 0 (by decide),
         h.2 3 [some 1, none] (by decide) 1 (by decide) (by decide)⟩

/-- Claim C2, calendar completeness of the gap filler: for every non-empty
table with distinct day-granularity date keys, `add_holiday_data` succeeds
and its date-key sequence is exactly the full inclusive day range from the
minimum to the maximum original date — consecutive (hence strictly
increasing with no gaps), duplicate-free, containing exactly the days `d`
with `min ≤ d ≤ max`, with cardinality `(max - min) + 1`. -/
theorem C2_calendar_completeness (df : Frame) (h1 : df.rows ≠ [])
    (h2 : noDups df.dates = true) :
    ∃ out, add_holiday_data df = some out ∧
      out.dates = dateRange (listMin df.dates) (listMax df.dates) ∧
      List.Chain' (fun a b => b = a + 1) out.dates ∧
      out.dates.Nodup ∧
      (∀ d, d ∈ out.dates ↔ listMin df.dates ≤ d ∧ d ≤ listMax df.dates) ∧
      out.dates.length = listMax df.dates - listMin df.dates + 1 := by
  obtain ⟨out, hout⟩ : ∃ out, add_holiday_data df = some out :=
    ⟨_, add_holiday_data_eq df h1 h2⟩
  have hdates := add_holiday_data_dates hout
  have hdne : df.dates ≠ [] := fun hc => h1 (List.map_eq_nil_iff.mp hc)
  have hlohi := listMin_le_listMax hdne
  have hlen : listMax df.dates + 1 - listMin df.dates
      = (listMax df.dates - listMin df.dates) + 1 := by omega
  refine ⟨out, hout, hdates, ?_, ?_, ?_, ?_⟩
  · rw [hdates, dateRange]
    exact chain_dateRangeAux _ _
  · rw [hdates, dateRange]
    exact nodup_dateRangeAux _ _
  · intro d
    rw [hdates, dateRange, hlen, mem_dateRangeAux]
    omega
  · rw [hdates, dateRange, length_dateRangeAux]
    omega

/-- Witness for C2 on the spec's example series (days 2 and 5). -/
theorem C2_calendar_completeness_witness :
    ∃ out, add_holiday_data exampleSeries = some out ∧
      out.dates = dateRange (listMin exampleSeries.dates) (listMax exampleSeries.dates) ∧
      List.Chain' (fun a b => b = a + 1) out.dates ∧
      out.dates.Nodup ∧
      (∀ d, d ∈ out.dates ↔
        listMin exampleSeries.dates ≤ d ∧ d ≤ listMax exampleSeries.dates) ∧
      out.dates.length
        = listMax exampleSeries.dates - listMin exampleSeries.dates + 1 :=
  C2_calendar_completeness exampleSeries (by decide) (by decide)

/-- Claim C6, the spec's concrete alignment example: the single-column
series `{2024-01-02: 10, 2024-01-05: 12}` (days 2 and 5 of the encoding)
aligns to exactly 4 rows with values 10, 10, 10, 12 on Jan 2-5. -/
theorem C6_concrete_example :
    add_holiday_data exampleSeries = some exampleAligned ∧
    exampleAligned.rows.length = 4 ∧
    exampleAligned.rows = [(2, [some 10]), (3, [some 10]),
      (4, [some 10]), (5, [some 12])] := by
  decide

/-- Claim C7, effect and frame condition of the date normalizer: for every
table, `process_date_format` keeps the index name, the columns, and the
number of rows, and maps each row to the same cells keyed by the calendar
day (the first component) of its raw date key, changing nothing else. -/
theorem C7_date_normalizer (df : RawFrame) :
    (process_date_format df).indexName = df.indexName ∧
    (process_date_format df).cols = df.cols ∧
    (process_date_format df).rows.length = df.rows.length ∧
    (process_date_format df).rows = df.rows.map (fun r => (r.1.1, r.2)) := by
  refine ⟨rfl, rfl, ?_, rfl⟩
  show (df.rows.map _).length = _
  rw [List.length_map]

/-- Claim C9, repair of explicitly-absent cells on observed dates: if the
input row at an original date `d` has a missing cell in column `j`, the
output of `add_holiday_data` holds at `d`, in column `j`, the most recent
non-missing value from a strictly earlier date (`lastObsLt`), or stays
absent when none exists — missing source cells never overwrite the
calendar frame before forward filling. -/
theorem C9_absent_cell_repair (df out : Frame) (hwf : df.wf = true)
    (h : add_holiday_data df = some out) (d : Nat) (v : List Cell)
    (hv : lookupRow df d = some v) (j : Nat) (hj : j < df.cols.length)
    (habsent : v[j]? = some none) :
    ∃ r, (d, r) ∈ out.rows ∧ r[j]? = some (lastObsLt df j d) := by
  have hmem : d ∈ df.dates := mem_dates.mpr ⟨v, lookupRow_mem hv⟩
  have hdates := add_holiday_data_dates h
  have h1 : df.rows ≠ [] := (add_holiday_data_eq_some h).1
  have hdne : df.dates ≠ [] := fun hc => h1 (List.map_eq_nil_iff.mp hc)
  have hlohi := listMin_le_listMax hdne
  have hlen : listMax df.dates + 1 - listMin df.dates
      = (listMax df.dates - listMin df.dates) + 1 := by omega
  have hdmem : d ∈ out.dates := by
    rw [hdates, dateRange, hlen]
    refine mem_dateRangeAux.mpr ⟨listMin_le hmem, ?_⟩
    have := le_listMax hmem
    omega
  rcases mem_dates.mp hdmem with ⟨r, hr⟩
  refine ⟨r, hr, ?_⟩
  rw [add_holiday_data_cells hwf h d r hr j hj]
  have hobs : obsAt df j d = none := by
    simp [obsAt, hv, List.getD_eq_getElem?_getD, habsent]
  rw [lastObsLe_step, hobs]
  rfl

/-- Witness for C9 on `exampleTwoCol`: the day-5 cell of column `a` is
missing in the input and comes out as the day-2 value. -/
theorem C9_absent_cell_repair_witness :
    ∃ r, (5, r) ∈ exampleTwoColOut.rows ∧
      r[0]? = some (lastObsLt exampleTwoCol 0 5) :=
  C9_absent_cell_repair exampleTwoCol exampleTwoColOut (by decide) (by decide)
    5 [none, some 7] (by decide) 0 (by decide) (by decide)

/-- Claim C10, duplicate day keys are rejected, not resolved: whenever the
date index carries a duplicate key (as day-truncation of two same-day
timestamps produces), `add_holiday_data` raises (`none`) instead of
keeping one of the duplicate rows. -/
theorem C10_duplicate_keys_rejected (df : Frame)
    (h : noDups df.dates = false) : add_holiday_data df = none := by
  unfold add_holiday_data
  by_cases he : df.rows.isEmpty = true
  · exfalso
    have hrows : df.rows = [] := List.isEmpty_iff.mp he
    rw [Frame.dates, hrows] at h
    simp [noDups] at h
  · have hnot : ¬(noDups df.dates = true) := by rw [h]; simp
    rw [if_neg he, if_neg hnot]

/-- Witness for C10: day-truncating `dupSeries` (two timestamps on day 2)
yields duplicate keys and the gap filler rejects the table. -/
theorem C10_duplicate_keys_rejected_witness :
    add_holiday_data (process_date_format dupSeries) = none :=
  C10_duplicate_keys_rejected (process_date_format dupSeries) (by decide)

/-- Claim C3, idempotence of the alignment pipeline: a table produced by
`process_date_format` followed by `add_holiday_data` passes through a
second run of the two stages unchanged — same date keys, same columns,
same cells (absent ones included). -/
theorem C3_idempotence (df : RawFrame) (out : Frame)
    (hwf : (process_date_format df).wf = true)
    (h : process_one df = some out) :
    process_one out.toRaw = some out := by
  unfold process_one at h ⊢
  rw [process_roundtrip]
  exact add_idem hwf h

/-- Witness for C3: re-running the pipeline on the aligned example table
reproduces it exactly. -/
theorem C3_idempotence_witness :
    process_one exampleAligned.toRaw = some exampleAligned :=
  C3_idempotence exampleRaw exampleAligned (by decide) (by decide)

/-- Claim C4, per-series independence of the driver: on a successful run,
removing any series `b` from the input collection leaves the driver's
output for any other series `a` unchanged (and the run still succeeds). -/
theorem C4_per_series_independence (l : List (String × RawFrame))
    (a b : String) (hab : a ≠ b) (out : List (String × Frame))
    (h : process_dataframes l = some out) :
    ∃ out2, process_dataframes (l.filter (fun p => !(p.1 == b))) = some out2 ∧
      lookupName out2 a = lookupName out a := by
  induction l generalizing out with
  | nil =>
    simp only [process_dataframes] at h
    obtain rfl : ([] : List (String × Frame)) = out := Option.some_inj.mp h
    exact ⟨[], rfl, rfl⟩
  | cons p rest ih =>
    rcases p with ⟨n, df⟩
    simp only [process_dataframes] at h
    cases hpo : process_one df with
    | none => rw [hpo] at h; cases h
    | some f =>
      rw [hpo] at h
      cases hpr : process_dataframes rest with
      | none => rw [hpr] at h; cases h
      | some ro =>
        rw [hpr] at h
        obtain rfl : (n, f) :: ro = out := Option.some_inj.mp h
        obtain ⟨out2, hout2, hlook⟩ := ih ro hpr
        by_cases hnb : (n == b) = true
        · have hfilter : (((n, df) :: rest).filter (fun p => !(p.1 == b)))
              = rest.filter (fun p => !(p.1 == b)) := by
            simp [List.filter_cons, hnb]
          refine ⟨out2, by rw [hfilter]; exact hout2, ?_⟩
          have hna : ¬((n == a) = true) := by
            intro hc
            exact hab ((eq_of_beq hc).symm.trans (eq_of_beq hnb))
          rw [lookupName_cons, if_neg hna]
          exact hlook
        · have hfilter : (((n, df) :: rest).filter (fun p => !(p.1 == b)))
              = (n, df) :: rest.filter (fun p => !(p.1 == b)) := by
            simp [List.filter_cons, hnb]
          refine ⟨(n, f) :: out2, ?_, ?_⟩
          · rw [hfilter]
            simp only [process_dataframes]
            rw [hpo, hout2]
          · rw [lookupName_cons, lookupName_cons]
            by_cases hna : (n == a) = true
            · rw [if_pos hna, if_pos hna]
            · rw [if_neg hna, if_neg hna]
              exact hlook

/-- Witness for C4: dropping series `b` from a two-series collection
leaves series `a`'s aligned table unchanged. -/
theorem C4_per_series_independence_witness :
    ∃ out2, process_dataframes
        ([("a", exampleRaw), ("b", exampleRaw)].filter (fun p => !(p.1 == "b")))
        = some out2 ∧
      lookupName out2 "a"
        = lookupName [("a", exampleAligned), ("b", exampleAligned)] "a" :=
  C4_per_series_independence [("a", exampleRaw), ("b", exampleRaw)] "a" "b"
    (by decide) [("a", exampleAligned), ("b", exampleAligned)] (by decide)

/-- Counterexample to claim C5 (isolate-and-continue): in the concrete
two-series batch below, the first series fails (duplicate day keys after
truncation) while the second would align fine on its own, yet the driver
returns nothing at all — it does not complete the processing of the
healthy series. -/
theorem C5_isolate_continue_cex :
    process_one dupSeries = none ∧
    process_one exampleRaw = some exampleAligned ∧
    process_dataframes [("bad", dupSeries), ("good", exampleRaw)] = none := by
  decide

/-- Amended claim C5: if the normalization or gap filling of any series in
the collection raises an error, `process_dataframes` propagates the error
and aborts the whole batch, returning no table for any series. -/
theorem C5_abort_on_failure (l : List (String × RawFrame))
    (p : String × RawFrame) (hp : p ∈ l) (hfail : process_one p.2 = none) :
    process_dataframes l = none := by
  induction l with
  | nil => cases hp
  | cons q rest ih =>
    rcases q with ⟨n, df⟩
    simp only [process_dataframes]
    rcases List.mem_cons.mp hp with rfl | htail
    · have hdf : process_one df = none := hfail
      rw [hdf]
    · cases hpo : process_one df with
      | none => rfl
      | some f => rw [ih htail]

/-- Witness for the amended C5 on the concrete failing batch. -/
theorem C5_abort_on_failure_witness :
    process_dataframes [("bad", dupSeries), ("good", exampleRaw)] = none :=
  C5_abort_on_failure [("bad", dupSeries), ("good", exampleRaw)]
    ("bad", dupSeries) (by decide) (by decide)

/-- Claim C8, prompt-loop validation: whenever `ask_for_filenames`
(started with the empty list) returns, the returned list is non-empty and
every element passed, at entry time, both the existence check and the
case-insensitive `.xlsx`/`.xls` extension check; invalid entries and a
sentinel `q` on an empty list only re-prompt. -/
theorem C8_prompt_validation (os_ex : String → Bool) (inputs l : List String)
    (h : ask_for_filenames os_ex [] inputs = some l) :
    l ≠ [] ∧ ∀ f ∈ l, os_ex f = true ∧ validExt f = true :=
  ask_for_filenames_invariant os_ex inputs [] l (by intro f hf; cases hf) h

/-- Witness for C8 on a concrete console session: an early `q` on the
empty list, a missing file, an existing non-spreadsheet file, a valid
entry (with surrounding blanks), and the final sentinel. -/
theorem C8_prompt_validation_witness :
    (["data.xlsx"] : List String) ≠ [] ∧
    ∀ f ∈ (["data.xlsx"] : List String),
      exampleFileSystem f = true ∧ validExt f = true :=
  C8_prompt_validation exampleFileSystem
    ["q", "missing.xlsx", "notes.txt", " data.xlsx ", "Q"] ["data.xlsx"]
    (by decide)

end TAA
